import Mathlib

/-
Verification development for the Universal_Scrapper repository (src/scrapper.py).

The scraper races a set of retrieval strategies for one page.  The parts of the
program that the properties below concern are embedded shallowly:

* `is_valid_content` mirrors `ContentValidator.is_valid_content`.
* `retry_go` / `retry_with_backoff` mirror `RetryMechanism.retry_with_backoff`.
* `RaceState` / `step` / `run` give a small-step interleaving semantics for
  `SinglePageScraper._scrape_concurrent` (one transition per statement-level
  action of a worker; the lock-guarded check-and-set is a single atomic step).
* `scrape_sequential` mirrors `SinglePageScraper._scrape_sequential`.
* `SimpleRequestsMethod.scrape`, `HTTPXMethod.scrape`, `SeleniumMethod.scrape`
  mirror the corresponding strategy classes, with the transport environment
  abstracted as a function returning either a body or a raised exception.

Python strings are modelled as lists of Unicode code points (`List Nat`);
`str.lower` and `str.strip` are modelled over the ASCII range, which is the
range all validator markers and all inputs of interest live in.
-/

/-- Python strings, as lists of Unicode code points. -/
abbrev Str := List Nat

/-- Convenience: the code points of a Lean string literal. -/
def str (s : String) : Str := s.data.map Char.toNat

/-- ASCII whitespace, the characters removed by `str.strip` (ASCII range). -/
def pyIsSpace (c : Nat) : Bool :=
  c == 32 || c == 9 || c == 10 || c == 13 || c == 11 || c == 12

/-- `str.lower` on one code point (ASCII range). -/
def lowerCp (c : Nat) : Nat := if 65 ≤ c ∧ c ≤ 90 then c + 32 else c

/-- `str.lower` (ASCII range). -/
def lowerStr (s : Str) : Str := s.map lowerCp

/-- `str.strip`: drop leading and trailing whitespace. -/
def pyStrip (s : Str) : Str :=
  ((s.dropWhile pyIsSpace).reverse.dropWhile pyIsSpace).reverse

/-- `hay` begins with `needle` (helper for the substring test). -/
def startsWith : Str → Str → Bool
  | _, [] => true
  | [], _ :: _ => false
  | c :: cs, n :: ns => c == n && startsWith cs ns

/-- Python `needle in hay` substring test. -/
def containsSub (needle : Str) : Str → Bool
  | [] => needle.isEmpty
  | c :: rest => startsWith (c :: rest) needle || containsSub needle rest

/-- The structural markers checked by the validator
(`html_indicators` in `ContentValidator.is_valid_content`). -/
def html_indicators : List Str :=
  [str "<html", str "<body", str "<div", str "<p", str "<span"]

/-- `ContentValidator.is_valid_content`, line for line:
`if not content: return False` (a `None` or empty string is rejected),
`content = content.strip()`, reject below 100 characters, accept on an HTML
indicator in the lowercased text, accept above 500 characters, else reject. -/
def is_valid_content (content : Option Str) : Bool :=
  match content with
  | none => false
  | some c0 =>
    if c0.isEmpty then false
    else
      let c := pyStrip c0
      if c.length < 100 then false
      else if html_indicators.any (fun ind => containsSub ind (lowerStr c)) then true
      else if 500 < c.length then true
      else false

/- ----- substring machinery ----- -/

theorem startsWith_iff (s m : Str) : startsWith s m = true ↔ ∃ b, s = m ++ b := by
  induction m generalizing s with
  | nil =>
    cases s <;> simp [startsWith]
  | cons n ns ih =>
    cases s with
    | nil => simp [startsWith]
    | cons c cs =>
      simp only [startsWith, Bool.and_eq_true, beq_iff_eq, ih, List.cons_append]
      constructor
      · rintro ⟨rfl, b, rfl⟩
        exact ⟨b, rfl⟩
      · rintro ⟨b, hb⟩
        obtain ⟨rfl, rfl⟩ := List.cons_eq_cons.mp hb
        exact ⟨rfl, b, rfl⟩

theorem containsSub_iff (m s : Str) : containsSub m s = true ↔ ∃ a b, s = a ++ m ++ b := by
  induction s with
  | nil =>
    cases m with
    | nil => simp [containsSub]
    | cons n ns => simp [containsSub]
  | cons c rest ih =>
    simp only [containsSub, Bool.or_eq_true, ih, startsWith_iff]
    constructor
    · rintro (⟨b, hb⟩ | ⟨a, b, rfl⟩)
      · exact ⟨[], b, by simpa using hb⟩
      · exact ⟨c :: a, b, rfl⟩
    · rintro ⟨a, b, hab⟩
      cases a with
      | nil => exact Or.inl ⟨b, by simpa using hab⟩
      | cons a0 as =>
        rw [List.cons_append, List.cons_append] at hab
        obtain ⟨rfl, h2⟩ := List.cons_eq_cons.mp hab
        exact Or.inr ⟨as, b, by simpa using h2⟩

theorem containsSub_map (f : Nat → Nat) (m s : Str) (h : containsSub m s = true) :
    containsSub (m.map f) (s.map f) = true := by
  rw [containsSub_iff] at h ⊢
  obtain ⟨a, b, rfl⟩ := h
  exact ⟨a.map f, b.map f, by simp⟩

theorem containsSub_reverse (m s : Str) (h : containsSub m s = true) :
    containsSub m.reverse s.reverse = true := by
  rw [containsSub_iff] at h ⊢
  obtain ⟨a, b, rfl⟩ := h
  exact ⟨b.reverse, a.reverse, by simp⟩

theorem containsSub_dropWhile (p : Nat → Bool) (m : Str) (hne : m ≠ [])
    (hnp : ∀ c ∈ m, p c = false) :
    ∀ s, containsSub m s = true → containsSub m (s.dropWhile p) = true := by
  intro s
  induction s with
  | nil =>
    intro h
    rw [List.dropWhile_nil]
    exact h
  | cons c rest ih =>
    intro h
    simp only [containsSub, Bool.or_eq_true] at h
    rw [List.dropWhile_cons]
    by_cases hpc : p c = true
    · rw [if_pos hpc]
      apply ih
      rcases h with hsw | hcs
      · cases m with
        | nil => exact absurd rfl hne
        | cons m0 ms =>
          simp only [startsWith, Bool.and_eq_true, beq_iff_eq] at hsw
          obtain ⟨rfl, _⟩ := hsw
          rw [hnp c (List.mem_cons_self c ms)] at hpc
          exact absurd hpc (by decide)
      · exact hcs
    · rw [if_neg hpc]
      simpa [containsSub, Bool.or_eq_true] using h

theorem containsSub_pyStrip (m s : Str) (hne : m ≠ [])
    (hnp : ∀ c ∈ m, pyIsSpace c = false) (h : containsSub m s = true) :
    containsSub m (pyStrip s) = true := by
  have hne2 : m.reverse ≠ [] := by simpa using hne
  have hnp2 : ∀ c ∈ m.reverse, pyIsSpace c = false := fun c hc =>
    hnp c (List.mem_reverse.mp hc)
  have h1 := containsSub_dropWhile pyIsSpace m hne hnp s h
  have h2 := containsSub_reverse m (s.dropWhile pyIsSpace) h1
  have h3 := containsSub_dropWhile pyIsSpace m.reverse hne2 hnp2 _ h2
  have h4 := containsSub_reverse m.reverse ((s.dropWhile pyIsSpace).reverse.dropWhile pyIsSpace) h3
  simpa [pyStrip] using h4

theorem pyIsSpace_lowerCp (c : Nat) : pyIsSpace (lowerCp c) = pyIsSpace c := by
  unfold lowerCp
  split
  · rename_i h
    have h1 : pyIsSpace (c + 32) = false := by
      simp only [pyIsSpace, Bool.or_eq_false_iff, beq_eq_false_iff_ne, ne_eq]
      omega
    have h2 : pyIsSpace c = false := by
      simp only [pyIsSpace, Bool.or_eq_false_iff, beq_eq_false_iff_ne, ne_eq]
      omega
    rw [h1, h2]
  · rfl

/- ----- validator facts ----- -/

theorem pyStrip_all_space (ws : Str) (h : ∀ c ∈ ws, pyIsSpace c = true) :
    pyStrip ws = [] := by
  have hd : ws.dropWhile pyIsSpace = [] := by
    induction ws with
    | nil => rfl
    | cons a t ih =>
      rw [List.dropWhile_cons, if_pos (h a (List.mem_cons_self a t))]
      exact ih fun c hc => h c (List.mem_cons.mpr (Or.inr hc))
  unfold pyStrip
  rw [hd]
  rfl

/-- Master equation for the validator on a nonempty string. -/
theorem is_valid_content_cons (a : Nat) (t : Str) :
    is_valid_content (some (a :: t)) =
      (if (pyStrip (a :: t)).length < 100 then false
       else if html_indicators.any
           (fun ind => containsSub ind (lowerStr (pyStrip (a :: t)))) then true
       else if 500 < (pyStrip (a :: t)).length then true
       else false) := rfl

theorem is_valid_short (s : Str) (h : (pyStrip s).length < 100) :
    is_valid_content (some s) = false := by
  cases s with
  | nil => rfl
  | cons a t =>
    rw [is_valid_content_cons, if_pos h]

theorem is_valid_of_marker (s : Str) (hlen : 100 ≤ (pyStrip s).length)
    (hany : (html_indicators.any
      fun ind => containsSub ind (lowerStr (pyStrip s))) = true) :
    is_valid_content (some s) = true := by
  cases s with
  | nil =>
    rw [show pyStrip [] = [] from rfl] at hlen
    exact absurd hlen (by decide)
  | cons a t =>
    rw [is_valid_content_cons, if_neg (by omega), if_pos hany]

/-- The validator only accepts a non-`None`, nonempty string
(used for the truthiness check on the committed winner). -/
theorem truthy_of_valid_aux (s : Str) (h : is_valid_content (some s) = true) :
    s.isEmpty = false := by
  cases s with
  | nil => exact absurd h (by decide)
  | cons a t => rfl

/- ----- Claim C3 ----- -/

/-- 50 code points containing the marker `<div` (namely `<div>` then 45 `a`s). -/
def shortMarked : Str := str "<div>" ++ List.replicate 45 97

set_option maxRecDepth 8000

/-- Claim C3, counterexample: a 50-unit content containing the structural marker
`<div` is rejected by `is_valid_content`, because the 100-unit minimum-length
test runs before the marker test and returns `False` unconditionally. -/
theorem short_marked_content_rejected :
    (pyStrip shortMarked).length = 50 ∧
    containsSub (str "<div") shortMarked = true ∧
    is_valid_content (some shortMarked) = false := by decide

/-- Claim C3 (amended): content shorter than 100 units (after stripping) is
rejected even when it contains a structural marker; the marker exception only
applies to content of at least 100 units, where it accepts regardless of the
500-unit plain-text threshold. -/
theorem length_floor_overrides_marker (s : Str) :
    ((pyStrip s).length < 100 → is_valid_content (some s) = false) ∧
    (100 ≤ (pyStrip s).length →
      (html_indicators.any fun ind => containsSub ind (lowerStr (pyStrip s))) = true →
      is_valid_content (some s) = true) :=
  ⟨fun h => is_valid_short s h, fun h1 h2 => is_valid_of_marker s h1 h2⟩

/-- 101 code points containing the marker `<div`. -/
def markedContent : Str := str "<div>" ++ List.replicate 96 97

/-- Witness for the amended C3 at concrete inputs. -/
theorem length_floor_overrides_marker_witness :
    is_valid_content (some shortMarked) = false ∧
    is_valid_content (some markedContent) = true :=
  ⟨(length_floor_overrides_marker shortMarked).1 (by decide),
   (length_floor_overrides_marker markedContent).2 (by decide) (by decide)⟩

/- ----- Claim C7 ----- -/

/-- Claim C7: the validator rejects `None`, rejects whitespace-only content,
rejects 99 units without a marker, rejects exactly 500 units without a marker,
and accepts 501 units without a marker (the 500 threshold is exclusive). -/
theorem validator_boundary_cases (ws s99 s500 s501 : Str)
    (hws : ∀ c ∈ ws, pyIsSpace c = true)
    (h99 : (pyStrip s99).length = 99)
    (_hm99 : ∀ ind ∈ html_indicators, containsSub ind (lowerStr (pyStrip s99)) = false)
    (h500 : (pyStrip s500).length = 500)
    (hm500 : ∀ ind ∈ html_indicators, containsSub ind (lowerStr (pyStrip s500)) = false)
    (h501 : (pyStrip s501).length = 501) :
    is_valid_content none = false ∧
    is_valid_content (some ws) = false ∧
    is_valid_content (some s99) = false ∧
    is_valid_content (some s500) = false ∧
    is_valid_content (some s501) = true := by
  refine ⟨rfl, ?_, ?_, ?_, ?_⟩
  · exact is_valid_short ws (by rw [pyStrip_all_space ws hws]; decide)
  · exact is_valid_short s99 (by omega)
  · have hany : (html_indicators.any
        fun ind => containsSub ind (lowerStr (pyStrip s500))) = false := by
      cases hA : (html_indicators.any
          fun ind => containsSub ind (lowerStr (pyStrip s500))) with
      | false => rfl
      | true =>
        obtain ⟨x, hx, hpx⟩ := List.any_eq_true.mp hA
        rw [hm500 x hx] at hpx
        exact absurd hpx (by decide)
    cases s500 with
    | nil =>
      rw [show pyStrip [] = [] from rfl] at h500
      exact absurd h500 (by decide)
    | cons a t =>
      rw [is_valid_content_cons, if_neg (by omega), hany]
      rw [if_neg (by decide), if_neg (by omega)]
  · cases s501 with
    | nil =>
      rw [show pyStrip [] = [] from rfl] at h501
      exact absurd h501 (by decide)
    | cons a t =>
      rw [is_valid_content_cons, if_neg (by omega)]
      cases hA : (html_indicators.any
          fun ind => containsSub ind (lowerStr (pyStrip (a :: t)))) with
      | true => rw [if_pos rfl]
      | false => rw [if_neg (by simp), if_pos (by omega)]

/-- Witness for C7 at concrete inputs. -/
theorem validator_boundary_cases_witness :
    is_valid_content none = false ∧
    is_valid_content (some [32, 32]) = false ∧
    is_valid_content (some (List.replicate 99 97)) = false ∧
    is_valid_content (some (List.replicate 500 97)) = false ∧
    is_valid_content (some (List.replicate 501 97)) = true :=
  validator_boundary_cases [32, 32] (List.replicate 99 97) (List.replicate 500 97)
    (List.replicate 501 97) (by decide) (by decide) (by decide) (by decide)
    (by decide) (by decide)

/- ----- Claim C10 ----- -/

/-- Claim C10: the marker check is case-insensitive.  If some case variant `mu`
of a structural marker (its lowercasing is one of the `html_indicators`) occurs
in the content and the stripped content has at least 100 units, the validator
accepts: the content is lowercased before the markers are matched. -/
theorem validator_marker_case_insensitive (s mu : Str)
    (hmu : lowerStr mu ∈ html_indicators)
    (hocc : containsSub mu s = true)
    (hlen : 100 ≤ (pyStrip s).length) :
    is_valid_content (some s) = true := by
  have hmne : mu ≠ [] := by
    intro hnil
    rw [hnil] at hmu
    exact absurd hmu (by decide)
  have hmnp : ∀ c ∈ mu, pyIsSpace c = false := by
    intro c hc
    have hmem : lowerCp c ∈ lowerStr mu := List.mem_map_of_mem lowerCp hc
    have hallm : ∀ ind ∈ html_indicators, ∀ x ∈ ind, pyIsSpace x = false := by decide
    have hlow : pyIsSpace (lowerCp c) = false := hallm (lowerStr mu) hmu (lowerCp c) hmem
    rw [← pyIsSpace_lowerCp]
    exact hlow
  have h1 : containsSub mu (pyStrip s) = true := containsSub_pyStrip mu s hmne hmnp hocc
  have h2 : containsSub (lowerStr mu) (lowerStr (pyStrip s)) = true :=
    containsSub_map lowerCp mu (pyStrip s) h1
  exact is_valid_of_marker s hlen (List.any_eq_true.mpr ⟨lowerStr mu, hmu, h2⟩)

/-- 101 code points containing the uppercase marker `<DIV`. -/
def upperMarked : Str := str "<DIV" ++ List.replicate 97 97

/-- Witness for C10 at a concrete input with an uppercase marker. -/
theorem validator_marker_case_insensitive_witness :
    is_valid_content (some upperMarked) = true :=
  validator_marker_case_insensitive upperMarked (str "<DIV") (by decide) (by decide)
    (by decide)

/- ----- Retry mechanism ----- -/

/-- `RetryMechanism.__init__`: retry count and base delay (seconds, modelled
as a rational so delay arithmetic is exact). -/
structure RetryMechanism where
  max_retries : Nat
  base_delay : ℚ

/-- Observable trace of one `retry_with_backoff` call: the value returned or
the exception finally re-raised, the delays slept between attempts in order,
and the number of calls made to `func`. -/
structure RetryTrace (ε α : Type) where
  result : Except ε α
  delays : List ℚ
  attempts : Nat
deriving Repr

/-- `RetryMechanism.retry_with_backoff`, one recursion step per loop iteration.
The loop `for attempt in range(self.max_retries + 1)` is modelled by the pair
`(attempt, remaining)` with `remaining = max_retries - attempt`, so the source
guard `attempt == self.max_retries` is `remaining = 0`.  `func` is modelled by
its per-call outcome `f : Nat → Except ε α` (call number `n` returns or
raises), and `random.uniform(0, 1)` by the per-attempt jitter value. -/
def retry_go {ε α : Type} (rm : RetryMechanism) (f : Nat → Except ε α)
    (jitter : Nat → ℚ) : Nat → Nat → RetryTrace ε α
  | attempt, remaining =>
    match f attempt with
    | .ok v => ⟨.ok v, [], 1⟩
    | .error e =>
      match remaining with
      | 0 => ⟨.error e, [], 1⟩
      | r + 1 =>
        let rest := retry_go rm f jitter (attempt + 1) r
        ⟨rest.result, (rm.base_delay * 2 ^ attempt + jitter attempt) :: rest.delays,
         rest.attempts + 1⟩

/-- `retry_with_backoff(self, func, *args)`: start at attempt 0. -/
def retry_with_backoff {ε α : Type} (rm : RetryMechanism) (f : Nat → Except ε α)
    (jitter : Nat → ℚ) : RetryTrace ε α :=
  retry_go rm f jitter 0 rm.max_retries

theorem retry_go_ok {ε α : Type} (rm : RetryMechanism) (f : Nat → Except ε α)
    (jitter : Nat → ℚ) (attempt remaining : Nat) (v : α) (h : f attempt = .ok v) :
    retry_go rm f jitter attempt remaining = ⟨.ok v, [], 1⟩ := by
  unfold retry_go
  rw [h]

theorem retry_go_error_zero {ε α : Type} (rm : RetryMechanism) (f : Nat → Except ε α)
    (jitter : Nat → ℚ) (attempt : Nat) (e : ε) (h : f attempt = .error e) :
    retry_go rm f jitter attempt 0 = ⟨.error e, [], 1⟩ := by
  unfold retry_go
  rw [h]

theorem retry_go_error_succ {ε α : Type} (rm : RetryMechanism) (f : Nat → Except ε α)
    (jitter : Nat → ℚ) (attempt r : Nat) (e : ε) (tr : RetryTrace ε α)
    (h : f attempt = .error e) (hrec : retry_go rm f jitter (attempt + 1) r = tr) :
    retry_go rm f jitter attempt (r + 1) =
      ⟨tr.result, (rm.base_delay * 2 ^ attempt + jitter attempt) :: tr.delays,
       tr.attempts + 1⟩ := by
  unfold retry_go
  rw [h]
  show (⟨(retry_go rm f jitter (attempt + 1) r).result,
         (rm.base_delay * 2 ^ attempt + jitter attempt) ::
           (retry_go rm f jitter (attempt + 1) r).delays,
         (retry_go rm f jitter (attempt + 1) r).attempts + 1⟩ : RetryTrace ε α) = _
  rw [hrec]

theorem retry_go_allfail {ε α : Type} (rm : RetryMechanism) (f : Nat → Except ε α)
    (jitter : Nat → ℚ) (cause : Nat → ε) (hf : ∀ n, f n = .error (cause n)) :
    ∀ remaining attempt,
      retry_go rm f jitter attempt remaining =
        ⟨.error (cause (attempt + remaining)),
         (List.range' attempt remaining).map (fun i => rm.base_delay * 2 ^ i + jitter i),
         remaining + 1⟩ := by
  intro remaining
  induction remaining with
  | zero =>
    intro attempt
    exact retry_go_error_zero rm f jitter attempt (cause attempt) (hf attempt)
  | succ r ih =>
    intro attempt
    have hrec := ih (attempt + 1)
    have hstep := retry_go_error_succ rm f jitter attempt r (cause attempt) _
      (hf attempt) hrec
    have harith : attempt + 1 + r = attempt + (r + 1) := by omega
    rw [hstep, harith]
    rfl

/- ----- Claim C5 ----- -/

/-- Claim C5: if every attempt raises, the retry policy makes exactly
`max_retries + 1` calls, sleeps `base_delay * 2 ^ attempt + jitter attempt`
between consecutive attempts, and finally re-raises the last failure cause
verbatim. -/
theorem retry_exhaustion_last_cause_verbatim {ε α : Type} (rm : RetryMechanism)
    (f : Nat → Except ε α) (jitter : Nat → ℚ) (cause : Nat → ε)
    (hf : ∀ n, f n = .error (cause n)) :
    retry_with_backoff rm f jitter =
      ⟨.error (cause rm.max_retries),
       (List.range rm.max_retries).map (fun i => rm.base_delay * 2 ^ i + jitter i),
       rm.max_retries + 1⟩ := by
  unfold retry_with_backoff
  rw [retry_go_allfail rm f jitter cause hf rm.max_retries 0, List.range_eq_range']
  rw [Nat.zero_add]

/-- Witness for C5: two retries, always failing; three attempts are made and
the final cause is the one from the last attempt. -/
theorem retry_exhaustion_last_cause_verbatim_witness :
    retry_with_backoff ⟨2, 1⟩ (fun n => (Except.error n : Except Nat Nat))
        (fun _ => (0 : ℚ)) =
      ⟨Except.error 2, (List.range 2).map (fun i => (1 : ℚ) * 2 ^ i + 0), 3⟩ :=
  retry_exhaustion_last_cause_verbatim ⟨2, 1⟩ (fun n => Except.error n)
    (fun _ => (0 : ℚ)) (fun n => n) (fun _ => rfl)

/- ----- Claim C8 ----- -/

/-- Claim C8: a strategy failing on attempts 1 and 2 and succeeding on attempt
3 under `max_retries = 3` returns the success result having slept exactly
twice, and (given `base_delay ≥ 1` as configured and jitter in `[0, 1]`) the
second delay is at least the first. -/
theorem retry_success_on_third_attempt {ε α : Type} (rm : RetryMechanism)
    (f : Nat → Except ε α) (jitter : Nat → ℚ) (e0 e1 : ε) (v : α)
    (hmr : rm.max_retries = 3) (hb : 1 ≤ rm.base_delay)
    (h0 : f 0 = .error e0) (h1 : f 1 = .error e1) (h2 : f 2 = .ok v)
    (hj : ∀ n, 0 ≤ jitter n ∧ jitter n ≤ 1) :
    retry_with_backoff rm f jitter =
      ⟨.ok v, [rm.base_delay * 2 ^ 0 + jitter 0, rm.base_delay * 2 ^ 1 + jitter 1], 3⟩ ∧
    rm.base_delay * 2 ^ 0 + jitter 0 ≤ rm.base_delay * 2 ^ 1 + jitter 1 := by
  constructor
  · have e2 := retry_go_ok rm f jitter 2 1 v h2
    have estep1 := retry_go_error_succ rm f jitter 1 1 e1 _ h1 e2
    have estep0 := retry_go_error_succ rm f jitter 0 2 e0 _ h0 estep1
    unfold retry_with_backoff
    rw [hmr]
    exact estep0
  · obtain ⟨hj0a, hj0b⟩ := hj 0
    obtain ⟨hj1a, hj1b⟩ := hj 1
    rw [pow_zero, pow_one, mul_one]
    linarith

/-- Witness for C8 at concrete inputs. -/
theorem retry_success_on_third_attempt_witness :
    retry_with_backoff ⟨3, 1⟩
        (fun n => if n < 2 then (Except.error n : Except Nat Nat) else .ok 7)
        (fun _ => (0 : ℚ)) =
      ⟨Except.ok 7, [(1 : ℚ) * 2 ^ 0 + 0, (1 : ℚ) * 2 ^ 1 + 0], 3⟩ ∧
    (1 : ℚ) * 2 ^ 0 + 0 ≤ (1 : ℚ) * 2 ^ 1 + 0 :=
  retry_success_on_third_attempt ⟨3, 1⟩
    (fun n => if n < 2 then (Except.error n : Except Nat Nat) else .ok 7)
    (fun _ => (0 : ℚ)) 0 1 7 rfl (by norm_num) rfl rfl rfl
    (fun _ => ⟨le_refl 0, by norm_num⟩)

/- ----- Strategies, the concurrent race, the sequential runner ----- -/

/-- Outcome of one call of `self._scrape_with_method(method, url)`: the method
returns a value (content, or `None` after its internal `except`), or raises. -/
inductive ScrapeResult where
  | ret : Option Str → ScrapeResult
  | exn : Str → ScrapeResult

/-- A scraping method: its `method_name` and the outcome of its `k`-th call. -/
structure Strategy where
  method_name : Str
  behavior : Nat → ScrapeResult

/-- Python truthiness of a content value (`None` and the empty string are
falsy). -/
def truthy : Option Str → Bool
  | none => false
  | some s => !s.isEmpty

/-- Program counter of one `scrape_method_wrapper` worker, with the retry loop
of `retry_with_backoff` inlined: `start` is the early-termination check at the
top of the wrapper; `attempt k` is about to make call `k` of the method;
`failed k e` has just caught exception `e` raised by call `k`; `sleeping k` is
about to sleep the backoff delay after call `k`; `validate c` is about to run
the content validator on the retry result `c`; `commit c` is about to enter
the lock-guarded check-and-set with validated content `c`; `done r` has
returned `r` from the wrapper. -/
inductive Phase where
  | start
  | attempt (k : Nat)
  | failed (k : Nat) (e : Str)
  | sleeping (k : Nat)
  | validate (c : Option Str)
  | commit (c : Option Str)
  | done (r : Option Str)

/-- One worker: its strategy, program counter, and counters of how many method
calls it has made and how many backoff sleeps it has performed. -/
structure TaskState where
  strat : Strategy
  phase : Phase
  attemptsMade : Nat
  sleepsMade : Nat

/-- One printed per-strategy failure line of the concurrent wrapper: the
exception message printed in its `except` arm, or the Invalid content line. -/
inductive Diag where
  | methodError (e : Str)
  | invalidContent
deriving DecidableEq

/-- Shared state of `_scrape_concurrent`: the retry configuration, the two
fields of the lock-guarded `success_result` slot, the number of times the slot
has been written, the workers, and the printed failure lines (worker index
paired with the line). -/
structure RaceState where
  max_retries : Nat
  content : Option Str
  winner_name : Option Str
  commits : Nat
  tasks : List TaskState
  diags : List (Nat × Diag)

def setTask (s : RaceState) (i : Nat) (t : TaskState) : RaceState :=
  { s with tasks := s.tasks.set i t }

/-- One atomic action of worker `i` currently in phase `ph`.  The `failed`
guard `max_retries ≤ k` is the source condition `attempt == self.max_retries`:
the loop range keeps every reachable `k` at most `max_retries`.  The whole
lock-guarded critical section (check the slot, set it if still empty) is one
atomic step, as under the source lock; the wrapper returns the validated
content whether or not it won the check. -/
def stepPhase (s : RaceState) (i : Nat) (t : TaskState) : Phase → RaceState
  | .start =>
    if truthy s.content then setTask s i { t with phase := .done none }
    else setTask s i { t with phase := .attempt 0 }
  | .attempt k =>
    match t.strat.behavior k with
    | .ret c =>
      setTask s i { t with phase := .validate c, attemptsMade := t.attemptsMade + 1 }
    | .exn e =>
      setTask s i { t with phase := .failed k e, attemptsMade := t.attemptsMade + 1 }
  | .failed k e =>
    if s.max_retries ≤ k then
      { setTask s i { t with phase := .done none } with
        diags := s.diags ++ [(i, .methodError e)] }
    else setTask s i { t with phase := .sleeping k }
  | .sleeping k =>
    setTask s i { t with phase := .attempt (k + 1), sleepsMade := t.sleepsMade + 1 }
  | .validate c =>
    if is_valid_content c then setTask s i { t with phase := .commit c }
    else
      { setTask s i { t with phase := .done none } with
        diags := s.diags ++ [(i, .invalidContent)] }
  | .commit c =>
    if truthy s.content then setTask s i { t with phase := .done c }
    else
      { setTask s i { t with phase := .done c } with
        content := c, winner_name := some t.strat.method_name,
        commits := s.commits + 1 }
  | .done _ => s

/-- One step of worker `i` (no-op when `i` is out of range).  A schedule is a
list of worker indices; the thread-pool cap and `future.cancel()` only
restrict which interleavings occur, so properties proved over all schedules
cover the pool behavior. -/
def step (s : RaceState) (i : Nat) : RaceState :=
  match s.tasks[i]? with
  | none => s
  | some t => stepPhase s i t t.phase

def run (s : RaceState) (sched : List Nat) : RaceState :=
  sched.foldl step s

/-- Initial state of `_scrape_concurrent`: both slot fields `None`, no commits,
every worker at the top of its wrapper, nothing printed. -/
def initRace (mr : Nat) (strats : List Strategy) : RaceState :=
  ⟨mr, none, none, 0, strats.map (fun st => ⟨st, .start, 0, 0⟩), []⟩

/-- The value `_scrape_concurrent` returns once the pool is done: the slot
content if truthy, else `None`. -/
def scrapeConcurrentResult (s : RaceState) : Option Str :=
  if truthy s.content then s.content else none

theorem step_none (s : RaceState) (i : Nat) (h : s.tasks[i]? = none) : step s i = s := by
  unfold step
  rw [h]

theorem step_eq (s : RaceState) (i : Nat) (t : TaskState) (h : s.tasks[i]? = some t) :
    step s i = stepPhase s i t t.phase := by
  unfold step
  rw [h]

theorem run_nil (s : RaceState) : run s [] = s := rfl

theorem run_cons (s : RaceState) (i : Nat) (sched : List Nat) :
    run s (i :: sched) = run (step s i) sched := rfl

/- ----- Sequential runner ----- -/

/-- One `method.scrape` call as seen by `retry_with_backoff`: a return is `ok`
(even when the method returned `None`), a raise is `error`. -/
def methodCall (b : Nat → ScrapeResult) (k : Nat) : Except Str (Option Str) :=
  match b k with
  | .ret c => .ok c
  | .exn e => .error e

/-- Pushing one strategy through the retry policy: the returned value or the
finally re-raised exception. -/
def retryOutcome (rm : RetryMechanism) (jitter : Nat → ℚ) (st : Strategy) :
    Except Str (Option Str) :=
  (retry_with_backoff rm (methodCall st.behavior) jitter).result

/-- The line `_scrape_sequential` prints for one non-winning method, or
`success` for the winner. -/
inductive SeqDiag where
  | success
  | tooShort
  | noContent
  | failedCompletely (e : Str)
deriving DecidableEq

/-- `SinglePageScraper._scrape_sequential`: iterate the methods in order, run
each through the retry policy, return the first result accepted by the
validator immediately; a raised retry exhaustion is caught (`continue`), a
truthy-but-invalid result logs the too-short line, a falsy result logs the
no-content line.  The trace records, per method actually reached, its name and
line; on a win the remaining methods never appear. -/
def scrape_sequential (rm : RetryMechanism) (jitter : Nat → ℚ) :
    List Strategy → Option Str × List (Str × SeqDiag)
  | [] => (none, [])
  | m :: rest =>
    match retryOutcome rm jitter m with
    | .error e =>
      let r := scrape_sequential rm jitter rest
      (r.1, (m.method_name, .failedCompletely e) :: r.2)
    | .ok c =>
      if is_valid_content c then (c, [(m.method_name, .success)])
      else if truthy c then
        let r := scrape_sequential rm jitter rest
        (r.1, (m.method_name, .tooShort) :: r.2)
      else
        let r := scrape_sequential rm jitter rest
        (r.1, (m.method_name, .noContent) :: r.2)

/-- The line printed for a strategy that `_scrape_sequential` reaches. -/
def seqDiag (rm : RetryMechanism) (jitter : Nat → ℚ) (st : Strategy) : SeqDiag :=
  match retryOutcome rm jitter st with
  | .error e => .failedCompletely e
  | .ok c =>
    if is_valid_content c then .success
    else if truthy c then .tooShort
    else .noContent

theorem scrape_sequential_cons_error (rm : RetryMechanism) (jitter : Nat → ℚ)
    (m : Strategy) (rest : List Strategy) (e : Str)
    (h : retryOutcome rm jitter m = .error e) :
    scrape_sequential rm jitter (m :: rest) =
      ((scrape_sequential rm jitter rest).1,
       (m.method_name, SeqDiag.failedCompletely e) ::
         (scrape_sequential rm jitter rest).2) := by
  conv_lhs => unfold scrape_sequential
  rw [h]

theorem scrape_sequential_cons_ok (rm : RetryMechanism) (jitter : Nat → ℚ)
    (m : Strategy) (rest : List Strategy) (c : Option Str)
    (h : retryOutcome rm jitter m = .ok c) :
    scrape_sequential rm jitter (m :: rest) =
      (if is_valid_content c then (c, [(m.method_name, SeqDiag.success)])
       else if truthy c then
         ((scrape_sequential rm jitter rest).1,
          (m.method_name, SeqDiag.tooShort) :: (scrape_sequential rm jitter rest).2)
       else
         ((scrape_sequential rm jitter rest).1,
          (m.method_name, SeqDiag.noContent) :: (scrape_sequential rm jitter rest).2)) := by
  conv_lhs => unfold scrape_sequential
  rw [h]

theorem seqDiag_error (rm : RetryMechanism) (jitter : Nat → ℚ) (st : Strategy) (e : Str)
    (h : retryOutcome rm jitter st = .error e) :
    seqDiag rm jitter st = SeqDiag.failedCompletely e := by
  unfold seqDiag
  rw [h]

theorem seqDiag_ok (rm : RetryMechanism) (jitter : Nat → ℚ) (st : Strategy) (c : Option Str)
    (h : retryOutcome rm jitter st = .ok c) :
    seqDiag rm jitter st =
      (if is_valid_content c then SeqDiag.success
       else if truthy c then SeqDiag.tooShort
       else SeqDiag.noContent) := by
  unfold seqDiag
  rw [h]

/-- A reached strategy fails to win the sequential scan: its retry either
re-raises or returns content the validator rejects. -/
def seqFails (rm : RetryMechanism) (jitter : Nat → ℚ) (st : Strategy) : Prop :=
  match retryOutcome rm jitter st with
  | .error _ => True
  | .ok c => is_valid_content c = false

/- ----- Claim C6 ----- -/

/-- Claim C6: in sequential mode the runner tries the strategies in order;
every earlier strategy that fails (by exception or invalid content) is simply
passed over, and the first strategy whose retried result validates has its
content returned immediately — the trace shows exactly the earlier strategies
and the winner, so no later strategy is ever invoked. -/
theorem sequential_first_valid_result_returned (rm : RetryMechanism) (jitter : Nat → ℚ)
    (pre post : List Strategy) (m : Strategy) (c : Option Str)
    (hpre : ∀ p ∈ pre, seqFails rm jitter p)
    (hm : retryOutcome rm jitter m = .ok c)
    (hv : is_valid_content c = true) :
    scrape_sequential rm jitter (pre ++ m :: post) =
      (c, pre.map (fun p => (p.method_name, seqDiag rm jitter p)) ++
          [(m.method_name, SeqDiag.success)]) := by
  induction pre with
  | nil =>
    rw [List.nil_append, scrape_sequential_cons_ok rm jitter m post c hm, if_pos hv]
    rfl
  | cons p ps ih =>
    have hpf := hpre p (List.mem_cons_self p ps)
    have hrest := ih (fun q hq => hpre q (List.mem_cons.mpr (Or.inr hq)))
    rw [List.cons_append]
    cases hout : retryOutcome rm jitter p with
    | error e =>
      rw [scrape_sequential_cons_error rm jitter p (ps ++ m :: post) e hout, hrest,
          List.map_cons, seqDiag_error rm jitter p e hout]
      rfl
    | ok c2 =>
      have hpf2 : is_valid_content c2 = false := by
        unfold seqFails at hpf
        rw [hout] at hpf
        exact hpf
      have hnv : ¬ is_valid_content c2 = true := by
        rw [hpf2]
        exact Bool.false_ne_true
      rw [scrape_sequential_cons_ok rm jitter p (ps ++ m :: post) c2 hout, if_neg hnv,
          List.map_cons, seqDiag_ok rm jitter p c2 hout, if_neg hnv]
      by_cases ht : truthy c2 = true
      · rw [if_pos ht, if_pos ht, hrest]
        rfl
      · rw [if_neg ht, if_neg ht, hrest]
        rfl

/-- A strategy that immediately returns valid marked content. -/
def winStrat : Strategy := ⟨str "Simple Requests", fun _ => .ret (some markedContent)⟩

/-- A strategy that raises on every call. -/
def failStratA : Strategy := ⟨str "CloudScraper", fun _ => .exn (str "connection refused")⟩

/-- Another always-raising strategy, with a different cause. -/
def failStratB : Strategy := ⟨str "Tor Network Requests", fun _ => .exn (str "timeout")⟩

/-- Witness for C6: one failing strategy, then a winning one, then one that
must never be invoked. -/
theorem sequential_first_valid_result_returned_witness :
    scrape_sequential ⟨0, 1⟩ (fun _ => (0 : ℚ)) [failStratA, winStrat, failStratB] =
      (some markedContent,
       [failStratA].map
          (fun p => (p.method_name, seqDiag ⟨0, 1⟩ (fun _ => (0 : ℚ)) p)) ++
         [(winStrat.method_name, SeqDiag.success)]) :=
  sequential_first_valid_result_returned ⟨0, 1⟩ (fun _ => (0 : ℚ))
    [failStratA] [failStratB] winStrat (some markedContent)
    (by
      intro p hp
      simp only [List.mem_singleton] at hp
      subst hp
      exact True.intro)
    rfl rfl

/- ----- Claim C1: the winner slot ----- -/

theorem truthy_of_valid (c : Option Str) (h : is_valid_content c = true) :
    truthy c = true := by
  cases c with
  | none => exact absurd h (by decide)
  | some s2 =>
    show (!s2.isEmpty) = true
    rw [truthy_of_valid_aux s2 h]
    rfl

/-- If the slot already holds truthy content, no step changes the slot fields
or the commit count: the committing branch is guarded by the slot check. -/
theorem step_slot_frozen (s : RaceState) (i : Nat) (h : truthy s.content = true) :
    (step s i).content = s.content ∧ (step s i).winner_name = s.winner_name ∧
    (step s i).commits = s.commits := by
  cases hti : s.tasks[i]? with
  | none =>
    rw [step_none s i hti]
    exact ⟨rfl, rfl, rfl⟩
  | some t =>
    rw [step_eq s i t hti]
    cases hph : t.phase with
    | start =>
      simp only [stepPhase]
      rw [if_pos h]
      exact ⟨rfl, rfl, rfl⟩
    | attempt k =>
      simp only [stepPhase]
      cases t.strat.behavior k <;> exact ⟨rfl, rfl, rfl⟩
    | failed k e =>
      simp only [stepPhase]
      by_cases hk : s.max_retries ≤ k
      · rw [if_pos hk]
        exact ⟨rfl, rfl, rfl⟩
      · rw [if_neg hk]
        exact ⟨rfl, rfl, rfl⟩
    | sleeping k => exact ⟨rfl, rfl, rfl⟩
    | validate c =>
      simp only [stepPhase]
      by_cases hv : is_valid_content c = true
      · rw [if_pos hv]
        exact ⟨rfl, rfl, rfl⟩
      · rw [if_neg hv]
        exact ⟨rfl, rfl, rfl⟩
    | commit c =>
      simp only [stepPhase]
      rw [if_pos h]
      exact ⟨rfl, rfl, rfl⟩
    | done r => exact ⟨rfl, rfl, rfl⟩

theorem run_slot_frozen (sched : List Nat) :
    ∀ s : RaceState, truthy s.content = true →
      (run s sched).content = s.content ∧ (run s sched).winner_name = s.winner_name := by
  induction sched with
  | nil =>
    intro s _
    exact ⟨rfl, rfl⟩
  | cons i rest ih =>
    intro s h
    rw [run_cons]
    obtain ⟨hc, hw, _⟩ := step_slot_frozen s i h
    have h2 : truthy (step s i).content = true := by rw [hc]; exact h
    obtain ⟨hc2, hw2⟩ := ih (step s i) h2
    exact ⟨hc2.trans hc, hw2.trans hw⟩

/-- Every worker that has reached its commit step holds validator-accepted
content: the only way into that phase is through the validation step. -/
def commitValid (s : RaceState) : Prop :=
  ∀ t ∈ s.tasks, ∀ c, t.phase = Phase.commit c → is_valid_content c = true

/-- Slot invariant: either no commit has happened and the slot is empty, or
exactly one commit has happened and the slot holds truthy content. -/
def SlotInv (s : RaceState) : Prop :=
  commitValid s ∧
  ((s.content = none ∧ s.winner_name = none ∧ s.commits = 0) ∨
   (truthy s.content = true ∧ s.commits = 1))

theorem commitValid_set (s : RaceState) (i : Nat) (t' : TaskState)
    (h : commitValid s)
    (h2 : ∀ c, t'.phase = Phase.commit c → is_valid_content c = true) :
    ∀ t ∈ s.tasks.set i t', ∀ c, t.phase = Phase.commit c → is_valid_content c = true := by
  intro t ht c hc
  rcases List.mem_or_eq_of_mem_set ht with hmem | rfl
  · exact h t hmem c hc
  · exact h2 c hc

theorem step_SlotInv (s : RaceState) (i : Nat) (h : SlotInv s) : SlotInv (step s i) := by
  obtain ⟨hcv, hslot⟩ := h
  cases hti : s.tasks[i]? with
  | none =>
    rw [step_none s i hti]
    exact ⟨hcv, hslot⟩
  | some t =>
    have htm : t ∈ s.tasks := List.getElem?_mem hti
    rw [step_eq s i t hti]
    cases hph : t.phase with
    | start =>
      simp only [stepPhase]
      by_cases htr : truthy s.content = true
      · rw [if_pos htr]
        exact ⟨commitValid_set s i _ hcv (fun c hc => by cases hc), hslot⟩
      · rw [if_neg htr]
        exact ⟨commitValid_set s i _ hcv (fun c hc => by cases hc), hslot⟩
    | attempt k =>
      simp only [stepPhase]
      cases t.strat.behavior k with
      | ret c =>
        exact ⟨commitValid_set s i _ hcv (fun c2 hc2 => by cases hc2), hslot⟩
      | exn e =>
        exact ⟨commitValid_set s i _ hcv (fun c2 hc2 => by cases hc2), hslot⟩
    | failed k e =>
      simp only [stepPhase]
      by_cases hk : s.max_retries ≤ k
      · rw [if_pos hk]
        exact ⟨commitValid_set s i _ hcv (fun c2 hc2 => by cases hc2), hslot⟩
      · rw [if_neg hk]
        exact ⟨commitValid_set s i _ hcv (fun c2 hc2 => by cases hc2), hslot⟩
    | sleeping k =>
      exact ⟨commitValid_set s i _ hcv (fun c2 hc2 => by cases hc2), hslot⟩
    | validate c =>
      simp only [stepPhase]
      by_cases hv : is_valid_content c = true
      · rw [if_pos hv]
        refine ⟨commitValid_set s i _ hcv (fun c2 hc2 => ?_), hslot⟩
        cases hc2
        exact hv
      · rw [if_neg hv]
        exact ⟨commitValid_set s i _ hcv (fun c2 hc2 => by cases hc2), hslot⟩
    | commit c =>
      simp only [stepPhase]
      have hvc : is_valid_content c = true := hcv t htm c hph
      by_cases htr : truthy s.content = true
      · rw [if_pos htr]
        exact ⟨commitValid_set s i _ hcv (fun c2 hc2 => by cases hc2), hslot⟩
      · rw [if_neg htr]
        rcases hslot with ⟨_, _, hk0⟩ | ⟨htr2, _⟩
        · refine ⟨commitValid_set s i _ hcv (fun c2 hc2 => by cases hc2), Or.inr ⟨?_, ?_⟩⟩
          · exact truthy_of_valid c hvc
          · show s.commits + 1 = 1
            rw [hk0]
        · exact absurd htr2 htr
    | done r =>
      exact ⟨hcv, hslot⟩

theorem run_SlotInv (sched : List Nat) :
    ∀ s : RaceState, SlotInv s → SlotInv (run s sched) := by
  induction sched with
  | nil =>
    intro s h
    exact h
  | cons i rest ih =>
    intro s h
    rw [run_cons]
    exact ih (step s i) (step_SlotInv s i h)

theorem initRace_SlotInv (mr : Nat) (strats : List Strategy) :
    SlotInv (initRace mr strats) := by
  constructor
  · intro t ht c hc
    simp only [initRace] at ht
    obtain ⟨st, _, rfl⟩ := List.mem_map.mp ht
    cases hc
  · exact Or.inl ⟨rfl, rfl, rfl⟩

/-- Claim C1: at most one winner is ever committed to the shared slot.  In any
reachable race state (any schedule from the initial state) the commit count is
at most 1; and once the slot holds content `c` with winner name `n`, any
further scheduling leaves both unchanged and the value returned to the caller
is exactly `c`. -/
theorem concurrent_single_commit_immutable (mr : Nat) (strats : List Strategy)
    (sched sched2 : List Nat) (c n : Str)
    (hc : (run (initRace mr strats) sched).content = some c)
    (hn : (run (initRace mr strats) sched).winner_name = some n) :
    (∀ sched0 : List Nat, (run (initRace mr strats) sched0).commits ≤ 1) ∧
    (run (run (initRace mr strats) sched) sched2).content = some c ∧
    (run (run (initRace mr strats) sched) sched2).winner_name = some n ∧
    scrapeConcurrentResult (run (run (initRace mr strats) sched) sched2) = some c := by
  have hInv : SlotInv (run (initRace mr strats) sched) :=
    run_SlotInv sched (initRace mr strats) (initRace_SlotInv mr strats)
  have htr : truthy (run (initRace mr strats) sched).content = true := by
    rcases hInv.2 with ⟨h0, _, _⟩ | ⟨ht, _⟩
    · rw [h0] at hc
      cases hc
    · exact ht
  obtain ⟨hc2, hw2⟩ := run_slot_frozen sched2 (run (initRace mr strats) sched) htr
  have htc : truthy (some c : Option Str) = true := by
    rw [← hc]
    exact htr
  refine ⟨?_, ?_, ?_, ?_⟩
  · intro sched0
    have hI := run_SlotInv sched0 (initRace mr strats) (initRace_SlotInv mr strats)
    rcases hI.2 with ⟨_, _, hk⟩ | ⟨_, hk⟩ <;> omega
  · rw [hc2, hc]
  · rw [hw2, hn]
  · unfold scrapeConcurrentResult
    rw [hc2, hc, if_pos htc]

/-- Witness for C1: a single immediately-winning strategy, run to completion,
then scheduled further. -/
theorem concurrent_single_commit_immutable_witness :
    (∀ sched0 : List Nat, (run (initRace 3 [winStrat]) sched0).commits ≤ 1) ∧
    (run (run (initRace 3 [winStrat]) [0, 0, 0, 0]) [0, 1]).content = some markedContent ∧
    (run (run (initRace 3 [winStrat]) [0, 0, 0, 0]) [0, 1]).winner_name =
      some (str "Simple Requests") ∧
    scrapeConcurrentResult (run (run (initRace 3 [winStrat]) [0, 0, 0, 0]) [0, 1]) =
      some markedContent :=
  concurrent_single_commit_immutable 3 [winStrat] [0, 0, 0, 0] [0, 1] markedContent
    (str "Simple Requests") (by decide) (by decide)

/- ----- Claim C4: cancellation ----- -/

/-- The worker has returned from its wrapper. -/
def isDone : Phase → Bool
  | .done _ => true
  | _ => false

/-- A strategy that raises on every call (a slow loser stuck mid-retry). -/
def slowStrat : Strategy := ⟨str "Selenium WebDriver", fun _ => .exn (str "boom")⟩

/-- After the slow worker has started and failed its first call, the fast
worker runs to its commit: the winner is recorded. -/
def c4mid : RaceState := run (initRace 3 [winStrat, slowStrat]) [1, 1, 0, 0, 0, 0]

/-- The slow worker keeps being scheduled after the commit. -/
def c4final : RaceState := run c4mid [1, 1, 1, 1, 1, 1, 1, 1, 1, 1]

/-- Claim C4, counterexample: in `c4mid` the winner is committed and the other
worker sits at a retry boundary having slept 0 times and attempted once; yet
by `c4final` that worker has performed 3 further sleeps and 3 further method
calls before finishing — the retry loop consults no cancellation signal, so it
runs all remaining retries to completion instead of stopping at the next
boundary. -/
theorem inflight_retry_runs_to_completion :
    truthy c4mid.content = true ∧
    (c4mid.tasks[1]?).map (fun t => (t.sleepsMade, t.attemptsMade)) = some (0, 1) ∧
    (c4final.tasks[1]?).map (fun t => (t.sleepsMade, t.attemptsMade)) = some (3, 4) ∧
    (c4final.tasks[1]?).map (fun t => isDone t.phase) = some true := by decide

/-- Claim C4 (amended): the winner check is made only at the top of the
wrapper — a worker still at `start` observes a committed winner and returns at
once, without any attempt; but the pre-sleep and pre-attempt transitions of an
in-flight retry loop never consult the winner slot: a worker at a retry
boundary with retries left proceeds to sleep, and a sleeping worker wakes into
its next attempt, whatever the slot holds (its late result can no longer
replace the committed winner). -/
theorem cancellation_checked_only_at_task_start (s : RaceState) (i : Nat) (t : TaskState)
    (ht : s.tasks[i]? = some t) :
    (t.phase = Phase.start → truthy s.content = true →
      step s i = setTask s i { t with phase := Phase.done none }) ∧
    (∀ k e, t.phase = Phase.failed k e → k < s.max_retries →
      step s i = setTask s i { t with phase := Phase.sleeping k }) ∧
    (∀ k, t.phase = Phase.sleeping k →
      step s i = setTask s i
        { t with phase := Phase.attempt (k + 1), sleepsMade := t.sleepsMade + 1 }) := by
  refine ⟨?_, ?_, ?_⟩
  · intro hph htr
    rw [step_eq s i t ht, hph]
    simp only [stepPhase]
    rw [if_pos htr]
  · intro k e hph hk
    rw [step_eq s i t ht, hph]
    simp only [stepPhase]
    rw [if_neg (by omega)]
  · intro k hph
    rw [step_eq s i t ht, hph]
    rfl

/-- Witness for the amended C4: the slow worker of `c4mid` (winner already
committed) is at a retry boundary and its next step is the backoff sleep. -/
theorem cancellation_checked_only_at_task_start_witness :
    step c4mid 1 = setTask c4mid 1
      { strat := slowStrat, phase := Phase.sleeping 0, attemptsMade := 1, sleepsMade := 0 } :=
  ((cancellation_checked_only_at_task_start c4mid 1
      ⟨slowStrat, Phase.failed 0 (str "boom"), 1, 0⟩ rfl).2.1) 0 (str "boom") rfl
    (by decide)

/- ----- Claim C2: exhaustion ----- -/

/-- Number of printed failure lines attributed to worker `i`. -/
def diagCount (l : List (Nat × Diag)) (i : Nat) : Nat :=
  (l.filter (fun d => d.1 == i)).length

theorem diagCount_append (l : List (Nat × Diag)) (j : Nat) (d : Diag) (i : Nat) :
    diagCount (l ++ [(j, d)]) i = diagCount l i + (if j = i then 1 else 0) := by
  unfold diagCount
  rw [List.filter_append, List.length_append]
  by_cases hj : j = i
  · subst hj
    simp
  · have hb : (j == i) = false := beq_eq_false_iff_ne.mpr hj
    simp [List.filter, hb, hj]

theorem step_tasks_length (s : RaceState) (i : Nat) :
    (step s i).tasks.length = s.tasks.length := by
  cases hti : s.tasks[i]? with
  | none => rw [step_none s i hti]
  | some t =>
    rw [step_eq s i t hti]
    cases hph : t.phase with
    | start =>
      simp only [stepPhase]
      split <;> simp [setTask]
    | attempt k =>
      simp only [stepPhase]
      cases t.strat.behavior k <;> simp [setTask]
    | failed k e =>
      simp only [stepPhase]
      split <;> simp [setTask]
    | sleeping k => simp [stepPhase, setTask]
    | validate c =>
      simp only [stepPhase]
      split <;> simp [setTask]
    | commit c =>
      simp only [stepPhase]
      split <;> simp [setTask]
    | done r => rfl

theorem run_tasks_length (sched : List Nat) :
    ∀ s : RaceState, (run s sched).tasks.length = s.tasks.length := by
  induction sched with
  | nil => intro s; rfl
  | cons i rest ih =>
    intro s
    rw [run_cons, ih (step s i), step_tasks_length]

/-- Every call of the strategy either raises or returns content the validator
rejects. -/
def allAttemptsFail (st : Strategy) : Prop :=
  ∀ k, match st.behavior k with
       | .ret c => is_valid_content c = false
       | .exn _ => True

/-- In a race that is never won, a worker holding content at its validation
step holds invalid content, and no worker ever reaches its commit step. -/
def phaseNoWin (t : TaskState) : Prop :=
  match t.phase with
  | .validate c => is_valid_content c = false
  | .commit _ => False
  | _ => True

/-- Invariant of a race whose strategies all fail: the slot stays empty, every
worker runs an always-failing strategy and can never commit, and worker `i`
has printed exactly one failure line as soon as (and only when) it is done. -/
def NoWinInv (s : RaceState) : Prop :=
  s.content = none ∧
  (∀ t ∈ s.tasks, allAttemptsFail t.strat ∧ phaseNoWin t) ∧
  (∀ i, diagCount s.diags i =
    match s.tasks[i]? with
    | some t => if isDone t.phase then 1 else 0
    | none => 0)

theorem NoWinInv_setTask (s : RaceState) (i : Nat) (t t' : TaskState)
    (hti : s.tasks[i]? = some t) (hInv : NoWinInv s)
    (hstrat : t'.strat = t.strat) (hnw : phaseNoWin t')
    (hdone : isDone t'.phase = isDone t.phase) :
    NoWinInv (setTask s i t') := by
  obtain ⟨hcont, htasks, hdiag⟩ := hInv
  have hlt : i < s.tasks.length := by
    rcases List.getElem?_eq_some.mp hti with ⟨h, _⟩
    exact h
  refine ⟨hcont, ?_, ?_⟩
  · intro u hu
    rcases List.mem_or_eq_of_mem_set hu with hmem | rfl
    · exact htasks u hmem
    · exact ⟨hstrat ▸ (htasks t (List.getElem?_mem hti)).1, hnw⟩
  · intro j
    show diagCount s.diags j =
      (match (s.tasks.set i t')[j]? with
       | some u => if isDone u.phase then 1 else 0
       | none => 0)
    by_cases hij : i = j
    · subst hij
      rw [List.getElem?_set_eq_of_lt t' hlt]
      show diagCount s.diags i = if isDone t'.phase then 1 else 0
      have h0 : diagCount s.diags i = if isDone t.phase then 1 else 0 := by
        have h1 := hdiag i
        rw [hti] at h1
        exact h1
      rw [h0, hdone]
    · rw [List.getElem?_set_ne hij]
      exact hdiag j

theorem NoWinInv_setTaskDiag (s : RaceState) (i : Nat) (t t' : TaskState) (d : Diag)
    (hti : s.tasks[i]? = some t) (hInv : NoWinInv s)
    (hstrat : t'.strat = t.strat) (hnw : phaseNoWin t')
    (hfrom : isDone t.phase = false) (hto : isDone t'.phase = true) :
    NoWinInv { setTask s i t' with diags := s.diags ++ [(i, d)] } := by
  obtain ⟨hcont, htasks, hdiag⟩ := hInv
  have hlt : i < s.tasks.length := by
    rcases List.getElem?_eq_some.mp hti with ⟨h, _⟩
    exact h
  refine ⟨hcont, ?_, ?_⟩
  · intro u hu
    rcases List.mem_or_eq_of_mem_set hu with hmem | rfl
    · exact htasks u hmem
    · exact ⟨hstrat ▸ (htasks t (List.getElem?_mem hti)).1, hnw⟩
  · intro j
    show diagCount (s.diags ++ [(i, d)]) j =
      (match (s.tasks.set i t')[j]? with
       | some u => if isDone u.phase then 1 else 0
       | none => 0)
    rw [diagCount_append]
    by_cases hij : i = j
    · subst hij
      rw [List.getElem?_set_eq_of_lt t' hlt, if_pos rfl]
      show diagCount s.diags i + 1 = if isDone t'.phase then 1 else 0
      have h0 : diagCount s.diags i = if isDone t.phase then 1 else 0 := by
        have h1 := hdiag i
        rw [hti] at h1
        exact h1
      rw [h0, hfrom, hto]
      rfl
    · rw [List.getElem?_set_ne hij, if_neg hij, Nat.add_zero]
      exact hdiag j

theorem step_NoWinInv (s : RaceState) (i : Nat) (h : NoWinInv s) : NoWinInv (step s i) := by
  cases hti : s.tasks[i]? with
  | none =>
    rw [step_none s i hti]
    exact h
  | some t =>
    have hmem : t ∈ s.tasks := List.getElem?_mem hti
    obtain ⟨hfail, hnow⟩ := h.2.1 t hmem
    have hcont := h.1
    rw [step_eq s i t hti]
    cases hph : t.phase with
    | start =>
      simp only [stepPhase]
      rw [if_neg (by rw [hcont]; decide)]
      exact NoWinInv_setTask s i t _ hti h rfl trivial (by rw [hph]; rfl)
    | attempt k =>
      simp only [stepPhase]
      cases hb : t.strat.behavior k with
      | ret c =>
        have hinv_c : is_valid_content c = false := by
          have h2 := hfail k
          rw [hb] at h2
          exact h2
        exact NoWinInv_setTask s i t _ hti h rfl hinv_c (by rw [hph]; rfl)
      | exn e =>
        exact NoWinInv_setTask s i t _ hti h rfl trivial (by rw [hph]; rfl)
    | failed k e =>
      simp only [stepPhase]
      by_cases hk : s.max_retries ≤ k
      · rw [if_pos hk]
        exact NoWinInv_setTaskDiag s i t _ (.methodError e) hti h rfl trivial
          (by rw [hph]; rfl) rfl
      · rw [if_neg hk]
        exact NoWinInv_setTask s i t _ hti h rfl trivial (by rw [hph]; rfl)
    | sleeping k =>
      exact NoWinInv_setTask s i t _ hti h rfl trivial (by rw [hph]; rfl)
    | validate c =>
      simp only [stepPhase]
      have hvc : is_valid_content c = false := by
        have h2 := hnow
        unfold phaseNoWin at h2
        rw [hph] at h2
        exact h2
      rw [if_neg (by rw [hvc]; exact Bool.false_ne_true)]
      exact NoWinInv_setTaskDiag s i t _ (.invalidContent) hti h rfl trivial
        (by rw [hph]; rfl) rfl
    | commit c =>
      have h2 := hnow
      unfold phaseNoWin at h2
      rw [hph] at h2
      exact h2.elim
    | done r => exact h

theorem run_NoWinInv (sched : List Nat) :
    ∀ s : RaceState, NoWinInv s → NoWinInv (run s sched) := by
  induction sched with
  | nil =>
    intro s h
    exact h
  | cons i rest ih =>
    intro s h
    rw [run_cons]
    exact ih (step s i) (step_NoWinInv s i h)

theorem initRace_NoWinInv (mr : Nat) (strats : List Strategy)
    (hf : ∀ st ∈ strats, allAttemptsFail st) : NoWinInv (initRace mr strats) := by
  refine ⟨rfl, ?_, ?_⟩
  · intro t ht
    simp only [initRace] at ht
    obtain ⟨st, hst, rfl⟩ := List.mem_map.mp ht
    exact ⟨hf st hst, trivial⟩
  · intro j
    show diagCount [] j =
      (match (strats.map fun st => (⟨st, .start, 0, 0⟩ : TaskState))[j]? with
       | some u => if isDone u.phase then 1 else 0
       | none => 0)
    rw [List.getElem?_map]
    cases strats[j]? with
    | none => rfl
    | some st => rfl

theorem retry_go_allfail_result (rm : RetryMechanism) (jitter : Nat → ℚ) (st : Strategy)
    (h : allAttemptsFail st) :
    ∀ rem attempt,
      (∃ e, (retry_go rm (methodCall st.behavior) jitter attempt rem).result = .error e) ∨
      (∃ c, (retry_go rm (methodCall st.behavior) jitter attempt rem).result = .ok c ∧
        is_valid_content c = false) := by
  intro rem
  induction rem with
  | zero =>
    intro attempt
    cases hb : st.behavior attempt with
    | ret c =>
      right
      refine ⟨c, ?_, ?_⟩
      · rw [retry_go_ok rm _ jitter attempt 0 c (by unfold methodCall; rw [hb])]
      · have h2 := h attempt
        rw [hb] at h2
        exact h2
    | exn e =>
      left
      exact ⟨e,
        by rw [retry_go_error_zero rm _ jitter attempt e (by unfold methodCall; rw [hb])]⟩
  | succ r ih =>
    intro attempt
    cases hb : st.behavior attempt with
    | ret c =>
      right
      refine ⟨c, ?_, ?_⟩
      · rw [retry_go_ok rm _ jitter attempt (r + 1) c (by unfold methodCall; rw [hb])]
      · have h2 := h attempt
        rw [hb] at h2
        exact h2
    | exn e =>
      rw [retry_go_error_succ rm _ jitter attempt r e _ (by unfold methodCall; rw [hb]) rfl]
      exact ih (attempt + 1)

theorem scrape_sequential_allfail (rm : RetryMechanism) (jitter : Nat → ℚ) :
    ∀ strats : List Strategy, (∀ st ∈ strats, allAttemptsFail st) →
      scrape_sequential rm jitter strats =
        (none, strats.map fun p => (p.method_name, seqDiag rm jitter p)) := by
  intro strats
  induction strats with
  | nil =>
    intro _
    rfl
  | cons p ps ih =>
    intro hf
    have hp := hf p (List.mem_cons_self p ps)
    have hrest := ih (fun q hq => hf q (List.mem_cons.mpr (Or.inr hq)))
    rcases retry_go_allfail_result rm jitter p hp rm.max_retries 0 with ⟨e, he⟩ | ⟨c, hc, hcv⟩
    · have he2 : retryOutcome rm jitter p = .error e := he
      rw [scrape_sequential_cons_error rm jitter p ps e he2, hrest, List.map_cons,
          seqDiag_error rm jitter p e he2]
    · have hc2 : retryOutcome rm jitter p = .ok c := hc
      have hnv : ¬ is_valid_content c = true := by
        rw [hcv]
        exact Bool.false_ne_true
      rw [scrape_sequential_cons_ok rm jitter p ps c hc2, if_neg hnv, List.map_cons,
          seqDiag_ok rm jitter p c hc2, if_neg hnv]
      by_cases ht : truthy c = true
      · rw [if_pos ht, if_pos ht, hrest]
      · rw [if_neg ht, if_neg ht, hrest]

/-- Claim C2, counterexample: in an all-failing race both the concurrent and
the sequential paths return the bare `None`; two races whose strategies fail
with different causes return the identical value, so the returned outcome
carries no per-strategy failure causes (these only reach the printed log). -/
theorem exhausted_outcome_is_bare_none :
    scrapeConcurrentResult (run (initRace 0 [failStratA]) [0, 0, 0]) = none ∧
    scrapeConcurrentResult (run (initRace 0 [failStratB]) [0, 0, 0]) = none ∧
    (scrape_sequential ⟨0, 1⟩ (fun _ => (0 : ℚ)) [failStratA]).1 = none := by
  refine ⟨by decide, by decide, ?_⟩
  rw [scrape_sequential_cons_error ⟨0, 1⟩ (fun _ => (0 : ℚ)) failStratA []
    (str "connection refused") rfl]
  rfl

/-- Claim C2 (amended): when every strategy always fails (raises, or never
returns validating content), the race returns the bare `None` — the exhausted
outcome itself carries no diagnostics — while the per-strategy failure causes
appear only in the printed log: in concurrent mode, once every worker is done,
exactly one failure line per strategy; in sequential mode, one logged line per
strategy, in order. -/
theorem exhausted_race_logs_one_diag_per_strategy (mr : Nat) (strats : List Strategy)
    (sched : List Nat) (rm : RetryMechanism) (jitter : Nat → ℚ)
    (hf : ∀ st ∈ strats, allAttemptsFail st)
    (hdone : ∀ t ∈ (run (initRace mr strats) sched).tasks, isDone t.phase = true) :
    scrapeConcurrentResult (run (initRace mr strats) sched) = none ∧
    (∀ i, i < strats.length → diagCount (run (initRace mr strats) sched).diags i = 1) ∧
    scrape_sequential rm jitter strats =
      (none, strats.map fun p => (p.method_name, seqDiag rm jitter p)) := by
  have hInv := run_NoWinInv sched (initRace mr strats) (initRace_NoWinInv mr strats hf)
  obtain ⟨hcont, _, hdiag⟩ := hInv
  refine ⟨?_, ?_, scrape_sequential_allfail rm jitter strats hf⟩
  · unfold scrapeConcurrentResult
    rw [hcont]
    rfl
  · intro i hi
    have hlen : (run (initRace mr strats) sched).tasks.length = strats.length := by
      rw [run_tasks_length]
      simp [initRace]
    have hi2 : i < (run (initRace mr strats) sched).tasks.length := by
      rw [hlen]
      exact hi
    obtain ⟨t, hti⟩ : ∃ t, (run (initRace mr strats) sched).tasks[i]? = some t :=
      ⟨_, List.getElem?_eq_getElem hi2⟩
    have h0 : diagCount (run (initRace mr strats) sched).diags i =
        if isDone t.phase then 1 else 0 := by
      have h1 := hdiag i
      rw [hti] at h1
      exact h1
    rw [h0, hdone t (List.getElem?_mem hti)]
    rfl

/-- Witness for the amended C2: two always-raising strategies driven to
completion concurrently, and the same two run sequentially. -/
theorem exhausted_race_logs_one_diag_per_strategy_witness :
    scrapeConcurrentResult
      (run (initRace 0 [failStratA, failStratB]) [0, 0, 0, 1, 1, 1]) = none ∧
    (∀ i, i < ([failStratA, failStratB] : List Strategy).length →
      diagCount (run (initRace 0 [failStratA, failStratB]) [0, 0, 0, 1, 1, 1]).diags i = 1) ∧
    scrape_sequential ⟨0, 1⟩ (fun _ => (0 : ℚ)) [failStratA, failStratB] =
      (none, [failStratA, failStratB].map
        (fun p => (p.method_name, seqDiag ⟨0, 1⟩ (fun _ => (0 : ℚ)) p))) :=
  exhausted_race_logs_one_diag_per_strategy 0 [failStratA, failStratB] [0, 0, 0, 1, 1, 1]
    ⟨0, 1⟩ (fun _ => (0 : ℚ))
    (by
      intro st hst
      simp only [List.mem_cons, List.not_mem_nil, or_false] at hst
      rcases hst with rfl | rfl
      · intro k
        exact True.intro
      · intro k
        exact True.intro)
    (by decide)

/- ----- Claim C9: strategies convert faults ----- -/

/-- The transport environment of the requests-based methods: `requests.get`
followed by `raise_for_status` either yields the body text or raises. -/
structure NetEnv where
  get : Str → Except Str Str

/-- Python `try ... except Exception` around an expression: a raised exception
is passed to the handler. -/
def pyTryCatch {α : Type} (body : Except Str α) (handler : Str → Except Str α) :
    Except Str α :=
  match body with
  | .ok a => .ok a
  | .error e => handler e

/-- Python `try ... finally`: the cleanup runs after the body; if the cleanup
itself raises, its exception replaces the result. -/
def pyTryFinally {α : Type} (body : Except Str α) (cleanup : Except Str Unit) :
    Except Str α :=
  match cleanup with
  | .ok _ => body
  | .error e => .error e

/-- `SimpleRequestsMethod.scrape`: request the page inside a `try` and return
its text; the `except` arm prints the failure and returns `None`.  The second
component counts the transport requests made (always one here). -/
def SimpleRequestsMethod.scrape (net : NetEnv) (url : Str) :
    Except Str (Option Str) × Nat :=
  (pyTryCatch
    (match net.get url with
     | .ok text => .ok (some text)
     | .error e => .error e)
    (fun _ => .ok none), 1)

/-- `HTTPXMethod.scrape`: `if not httpx:` print and return `None` before any
transport activity; else request inside a `try` whose `except` arm returns
`None`. -/
def HTTPXMethod.scrape (httpxInstalled : Bool) (net : NetEnv) (url : Str) :
    Except Str (Option Str) × Nat :=
  if !httpxInstalled then (.ok none, 0)
  else
    (pyTryCatch
      (match net.get url with
       | .ok text => .ok (some text)
       | .error e => .error e)
      (fun _ => .ok none), 1)

/-- The browser environment of `SeleniumMethod.scrape`: launching the Chrome
driver, loading the page (navigate, wait for the body, read `page_source`),
and quitting the driver. -/
structure SeleniumEnv where
  launch : Except Str Unit
  pageSource : Str → Except Str Str
  quit : Except Str Unit

/-- `SeleniumMethod.scrape`: `driver = None`; inside a `try`, launch the
driver and load the page; the `except` arm returns `None`; the `finally` arm
quits the driver when one was created, itself wrapped in an inner
`try ... except: pass` so a failing quit cannot raise. -/
def SeleniumMethod.scrape (env : SeleniumEnv) (url : Str) : Except Str (Option Str) :=
  match env.launch with
  | .error e =>
    pyTryFinally (pyTryCatch (.error e) (fun _ => .ok none)) (.ok ())
  | .ok _ =>
    pyTryFinally
      (pyTryCatch
        (match env.pageSource url with
         | .ok src => .ok (some src)
         | .error e => .error e)
        (fun _ => .ok none))
      (pyTryCatch env.quit (fun _ => .ok ()))

/-- Claim C9: whatever the transport or browser environment does, no modelled
strategy lets a fault escape across the boundary — every call produces an
`ok` value; a transport fault yields the failure value `None` (no content);
and the variant whose optional dependency is missing self-disables, returning
`None` without attempting any transport request. -/
theorem strategies_convert_faults_to_failure (net : NetEnv) (env : SeleniumEnv)
    (url : Str) :
    (∃ r, (SimpleRequestsMethod.scrape net url).1 = .ok r) ∧
    (∀ e, net.get url = .error e → (SimpleRequestsMethod.scrape net url).1 = .ok none) ∧
    (∃ r, SeleniumMethod.scrape env url = .ok r) ∧
    HTTPXMethod.scrape false net url = (.ok none, 0) ∧
    (∀ installed, ∃ r n, HTTPXMethod.scrape installed net url = (.ok r, n)) := by
  refine ⟨?_, ?_, ?_, rfl, ?_⟩
  · cases hg : net.get url with
    | ok text =>
      exact ⟨some text, by simp [SimpleRequestsMethod.scrape, pyTryCatch, hg]⟩
    | error e =>
      exact ⟨none, by simp [SimpleRequestsMethod.scrape, pyTryCatch, hg]⟩
  · intro e he
    simp [SimpleRequestsMethod.scrape, pyTryCatch, he]
  · cases hl : env.launch with
    | error e =>
      exact ⟨none, by simp [SeleniumMethod.scrape, pyTryCatch, pyTryFinally, hl]⟩
    | ok u =>
      cases hp : env.pageSource url with
      | ok src =>
        refine ⟨some src, ?_⟩
        cases hq : env.quit <;>
          simp [SeleniumMethod.scrape, pyTryCatch, pyTryFinally, hl, hp, hq]
      | error e =>
        refine ⟨none, ?_⟩
        cases hq : env.quit <;>
          simp [SeleniumMethod.scrape, pyTryCatch, pyTryFinally, hl, hp, hq]
  · intro installed
    cases installed with
    | false => exact ⟨none, 0, rfl⟩
    | true =>
      cases hg : net.get url with
      | ok text =>
        exact ⟨some text, 1, by simp [HTTPXMethod.scrape, pyTryCatch, hg]⟩
      | error e =>
        exact ⟨none, 1, by simp [HTTPXMethod.scrape, pyTryCatch, hg]⟩

/-- A transport that always raises. -/
def failingNet : NetEnv := ⟨fun _ => .error (str "ConnectionError")⟩

/-- A browser environment whose operations all raise. -/
def failingSelenium : SeleniumEnv :=
  ⟨.error (str "WebDriverException"), fun _ => .error (str "TimeoutException"),
   .error (str "quit failed")⟩

/-- Witness for C9: with a transport that raises, the simple method returns
the failure value `None`, and the dependency-missing variant returns `None`
with zero transport requests. -/
theorem strategies_convert_faults_to_failure_witness :
    (SimpleRequestsMethod.scrape failingNet (str "u")).1 = .ok none ∧
    HTTPXMethod.scrape false failingNet (str "u") = (.ok none, 0) :=
  ⟨(strategies_convert_faults_to_failure failingNet failingSelenium (str "u")).2.1
      (str "ConnectionError") rfl,
   (strategies_convert_faults_to_failure failingNet failingSelenium (str "u")).2.2.2.1⟩
